import Mathlib

/-!
# Verification of the neko agent core

A shallow embedding of the neko agent engine (Go): the step data model and
history store (`memory.go`, step types), the tool registry and dispatch
(`tool.go`, `BaseAgent.executeTool`), the two run loops
(`ToolCallingAgent.Run`, `CodeAgent.Run`), code-block extraction
(`parseCodeBlock`, `isFinalAnswer`), and the two code executors
(`PythonExecutor.Execute`, `DockerExecutor.Execute`).

Modelling conventions:
- A Go `any` slot is `Option Val`: `none` is the nil interface value, and
  `Val` enumerates the non-nil values the development needs.
- Machine integers carry no overflow-relevant arithmetic here; counts are `Nat`.
- Wall-clock time is an abstract monotone counter: each `time.Now()` call
  reads and increments the run's `clock`.  A `Timing` whose `endTime` is
  `none` models the Go zero `time.Time` (i.e. `NewTiming` was never called).
- The external model (`Model.Generate`) and the subprocess behind an
  executor are oracles supplied as environment functions.
- `json.Unmarshal` into `any` is an abstract decoder `String → Option Val`
  (`none` models a failed unmarshal — which Go ignores — and a decoded
  JSON null alike: both leave the Go result nil).
- Callback functions are identified by `Nat` ids; a run additionally
  records an event trace (`appended` / `invoked`) so that ordering claims
  about appends and callback invocations are statable.
-/

namespace Neko

/-- The non-nil Go `any` values flowing through the agent core; a full
`any` slot is `Option Val`, with `none` the nil interface value. -/
inductive Val where
  | vBool (b : Bool)
  | vInt (n : Int)
  | vStr (s : String)
deriving Repr, DecidableEq

/-- Go `fmt.Sprintf("%v", x)` on the non-nil values above. -/
def Val.format : Val → String
  | .vBool b => if b then "true" else "false"
  | .vInt n => toString n
  | .vStr s => s

/-- Go `fmt.Sprintf("%v", x)` on an `any` slot: nil prints "<nil>". -/
def formatAny : Option Val → String
  | none => "<nil>"
  | some v => v.format

/-- Argument mapping lookup (Go `v, ok := args[name]`, comma-ok form):
`some` means the key is present — its value may itself be nil. -/
def lookupArg (args : List (String × Option Val)) (k : String) :
    Option (Option Val) :=
  (args.find? (fun p => p.1 = k)).map (·.2)

/-- Go `v, _ := x.(string)`: the string value, or `""` if absent or not a string. -/
def argAsString (v : Option Val) : String :=
  match v with
  | some (.vStr s) => s
  | _ => ""

/-- ToolCall (part_000): id, tool name, argument mapping. -/
structure ToolCall where
  id : String
  name : String
  arguments : List (String × Option Val)
deriving Repr, DecidableEq

/-- MessageRole (part_000). -/
inductive MessageRole where
  | system
  | user
  | assistant
  | tool
deriving Repr, DecidableEq

/-- Message (part_000); only the fields the engine core reads/writes. -/
structure Message where
  role : MessageRole
  content : String
deriving Repr, DecidableEq

/-- TokenUsage (part_000). -/
structure TokenUsage where
  inputTokens : Nat := 0
  outputTokens : Nat := 0
deriving Repr, DecidableEq

/-- TokenUsage.Total (part_000). -/
def TokenUsage.Total (t : TokenUsage) : Nat :=
  t.inputTokens + t.outputTokens

/-- Timing (part_000): `endTime = none` models the Go zero `time.Time`,
i.e. `NewTiming` was never called on the step. -/
structure Timing where
  startTime : Nat
  endTime : Option Nat := none
deriving Repr, DecidableEq

/-- ActionStep (part_000). `error = none` models a nil error. -/
structure ActionStep where
  stepNumber : Nat
  timing : Timing
  modelOutput : String := ""
  codeAction : String := ""
  toolCalls : List ToolCall := []
  observations : String := ""
  error : Option String := none
  tokenUsage : Option TokenUsage := none
  isFinal : Bool := false
deriving Repr, DecidableEq

/-- Step (part_000): the closed set of step variants. -/
inductive Step where
  | task (t : String) (images : List (List Nat))
  | action (a : ActionStep)
  | planning (plan : String) (timing : Timing) (tokenUsage : Option TokenUsage)
  | finalAnswer (output : Option Val)
deriving Repr, DecidableEq

/-- Step.StepType (part_000). -/
def Step.StepType : Step → String
  | .task _ _ => "task"
  | .action _ => "action"
  | .planning _ _ _ => "planning"
  | .finalAnswer _ => "final_answer"

/-- JSON rendering of a `Val` (models `encoding/json` output for these values). -/
def Val.toJson : Val → String
  | .vBool b => if b then "true" else "false"
  | .vInt n => toString n
  | .vStr s => "\"" ++ s ++ "\""

/-- formatToolCalls (part_000): serialized tool calls, one object per call
(Go marshals map keys sorted: function < id < type; arguments < name). -/
def formatToolCalls (toolCalls : List ToolCall) : String :=
  let one := fun (tc : ToolCall) =>
    "\x7b\"function\":\x7b\"arguments\":\x7b"
      ++ String.intercalate ","
           ((tc.arguments.map fun p => "\"" ++ p.1 ++ "\":"
               ++ (match p.2 with | none => "null" | some v => v.toJson)))
      ++ "\x7d,\"name\":\"" ++ tc.name ++ "\"\x7d,\"id\":\"" ++ tc.id
      ++ "\",\"type\":\"function\"\x7d"
  "Calling tools:\n" ++ "[" ++ String.intercalate "," (toolCalls.map one) ++ "]"

/-- ActionStep.ToMessages (part_000 lines 92-112). -/
def ActionStep.ToMessages (s : ActionStep) : List Message :=
  (if s.modelOutput ≠ "" then [⟨.assistant, s.modelOutput⟩] else [])
  ++ (if s.toolCalls ≠ [] then [⟨.assistant, formatToolCalls s.toolCalls⟩] else [])
  ++ (if s.observations ≠ "" then [⟨.user, "Observation:\n" ++ s.observations⟩] else [])
  ++ (match s.error with
      | some e => [⟨.user, "Error:\n" ++ e ++ "\nPlease try again or use another approach."⟩]
      | none => [])

/-- Step.ToMessages (part_000): per-variant rendering. -/
def Step.ToMessages : Step → List Message
  | .task t _ => [⟨.user, "Task:\n" ++ t⟩]
  | .action a => a.ToMessages
  | .planning plan _ _ =>
      [⟨.assistant, plan⟩, ⟨.user, "Now proceed and carry out this plan."⟩]
  | .finalAnswer _ => []

/-- Memory (memory.go): system prompt plus ordered step log. -/
structure Memory where
  systemPrompt : String
  steps : List Step
deriving Repr, DecidableEq

/-- NewMemory (memory.go). -/
def NewMemory (systemPrompt : String) : Memory :=
  ⟨systemPrompt, []⟩

/-- Memory.Reset (memory.go): clears steps, keeps the system prompt. -/
def Memory.Reset (m : Memory) : Memory :=
  { m with steps := [] }

/-- Memory.AddStep (memory.go). -/
def Memory.AddStep (m : Memory) (s : Step) : Memory :=
  { m with steps := m.steps ++ [s] }

/-- Memory.ToMessages (memory.go lines 41-47): starts from the system
message and appends each step's rendering in step order. -/
def Memory.ToMessages (m : Memory) : List Message :=
  m.steps.foldl (fun msgs step => msgs ++ step.ToMessages)
    [⟨.system, m.systemPrompt⟩]

/-- Memory.TotalTokens (memory.go lines 50-67): fold over Action and
Planning steps only. -/
def Memory.TotalTokens (m : Memory) : TokenUsage :=
  m.steps.foldl
    (fun total step =>
      match step with
      | .action a =>
          match a.tokenUsage with
          | some u => ⟨total.inputTokens + u.inputTokens, total.outputTokens + u.outputTokens⟩
          | none => total
      | .planning _ _ tu =>
          match tu with
          | some u => ⟨total.inputTokens + u.inputTokens, total.outputTokens + u.outputTokens⟩
          | none => total
      | _ => total)
    ⟨0, 0⟩

/-- CallbackRegistry (memory.go): step-type tag to callback ids, in
registration order.  Callbacks are identified by `Nat` ids. -/
structure CallbackRegistry where
  callbacks : String → List Nat

/-- NewCallbackRegistry (memory.go). -/
def NewCallbackRegistry : CallbackRegistry :=
  ⟨fun _ => []⟩

/-- CallbackRegistry.Register (memory.go): appends for the given type. -/
def CallbackRegistry.Register (r : CallbackRegistry) (stepType : String) (id : Nat) :
    CallbackRegistry :=
  ⟨fun t => if t = stepType then r.callbacks t ++ [id] else r.callbacks t⟩

/-- CallbackRegistry.Trigger (memory.go lines 137-145): callbacks for the
step's type, then the "all" callbacks, each in registration order.  Returns
the ids in invocation order. -/
def CallbackRegistry.Trigger (r : CallbackRegistry) (s : Step) : List Nat :=
  r.callbacks s.StepType ++ r.callbacks "all"

/-- Tool (tool.go): the engine only reads a tool's name and executes it;
`execute` returning `.error` models a non-nil Go error. -/
structure Tool where
  name : String
  execute : List (String × Option Val) → Except String (Option Val)

/-- ToolRegistry (tool.go): name-keyed map; `Register` overwrites (a fresh
binding shadows an older one, i.e. last registration wins). -/
structure ToolRegistry where
  tools : List (String × Tool)

/-- NewToolRegistry (tool.go). -/
def NewToolRegistry : ToolRegistry :=
  ⟨[]⟩

/-- ToolRegistry.Register (tool.go): insert/overwrite by name. -/
def ToolRegistry.Register (r : ToolRegistry) (t : Tool) : ToolRegistry :=
  ⟨(t.name, t) :: r.tools⟩

/-- ToolRegistry.Get (tool.go): newest binding for the name wins. -/
def ToolRegistry.Get (r : ToolRegistry) (name : String) : Option Tool :=
  (r.tools.find? (fun p => p.1 = name)).map (·.2)

/-- FinalAnswerTool.Execute (tool.go lines 165-171): returns the "answer"
argument, or an error when it is absent. -/
def FinalAnswerTool : Tool :=
  ⟨"final_answer", fun args =>
    match lookupArg args "answer" with
    | some answer => .ok answer
    | none => .error "missing required argument: answer"⟩

/-- A nested agent as Dispatch sees it: its `Run` projected to
task text ↦ output-or-error (part_004 `agentTool` / managed-agent branch). -/
structure ManagedAgent where
  run : String → Except String (Option Val)

/-- BaseAgent (part_004): the fields the run loops read. -/
structure BaseAgent where
  tools : ToolRegistry
  managedAgents : List (String × ManagedAgent)
  callbacks : CallbackRegistry
  systemPrompt : String

/-- BaseAgent.executeTool (part_004 lines 220-235): managed agents are
checked first, then the plain tool registry; unresolved names fail with
"unknown tool". -/
def BaseAgent.executeTool (a : BaseAgent) (tc : ToolCall) : Except String (Option Val) :=
  match (a.managedAgents.find? (fun p => p.1 = tc.name)).map (·.2) with
  | some agent => agent.run (argAsString ((lookupArg tc.arguments "task").join))
  | none =>
      match a.tools.Get tc.name with
      | some tool => tool.execute tc.arguments
      | none => .error ("unknown tool: " ++ tc.name)

/-- The model's reply (part_005 `Model.Generate` result message): the
fields the run loops read. -/
structure ModelResponse where
  content : String
  toolCalls : List ToolCall := []
  tokenUsage : Option TokenUsage := none

/-- Environment of one run: the external model's outcome and the context's
cancellation status, per step number. -/
structure ModelEnv where
  respond : Nat → Except String ModelResponse
  cancelled : Nat → Bool

/-- Instrumentation event: a step appended to the history store, or a
callback (by id) invoked on a step. -/
inductive Event where
  | appended (s : Step)
  | invoked (cb : Nat) (s : Step)
deriving Repr, DecidableEq

/-- Mutable state of one run: the history store, the run-level
`finalOutput` variable, the abstract clock, and the event trace. -/
structure RunState where
  memory : Memory
  finalOutput : Option Val
  clock : Nat
  trace : List Event

/-- `time.Now()`: read the clock and advance it. -/
def RunState.now (st : RunState) : Nat × RunState :=
  (st.clock, { st with clock := st.clock + 1 })

/-- `a.memory.AddStep(step)` plus trace instrumentation. -/
def RunState.addStep (st : RunState) (s : Step) : RunState :=
  { st with memory := st.memory.AddStep s, trace := st.trace ++ [.appended s] }

/-- `a.callbacks.Trigger(step)` recorded in the trace. -/
def RunState.triggerCbs (st : RunState) (r : CallbackRegistry) (s : Step) : RunState :=
  { st with trace := st.trace ++ (r.Trigger s).map (fun cb => .invoked cb s) }

/-- Accumulator of the per-batch tool-call loop in ToolCallingAgent.Run
(part_004 lines 168-182): observation lines, the step's IsFinal flag, and
the run-level finalOutput variable. -/
structure BatchAcc where
  observations : List String
  isFinal : Bool
  finalOutput : Option Val
deriving Repr

/-- The tool-call dispatch loop of ToolCallingAgent.Run (part_004 lines
170-181): each call in order; an execution error is recorded as an
"Error executing <name>: <msg>" line; a successful call named
"final_answer" marks the step final and overwrites finalOutput. -/
def processToolCalls (a : BaseAgent) : List ToolCall → BatchAcc → BatchAcc
  | [], acc => acc
  | tc :: rest, acc =>
      let acc' :=
        match a.executeTool tc with
        | .error e =>
            { acc with observations :=
                acc.observations ++ ["Error executing " ++ tc.name ++ ": " ++ e] }
        | .ok result =>
            let acc1 := { acc with observations := acc.observations ++ [formatAny result] }
            if tc.name = "final_answer" then
              { acc1 with isFinal := true, finalOutput := result }
            else acc1
      processToolCalls a rest acc'

/-- Go strings.Join with separator `sep`. -/
def goJoin (xs : List String) (sep : String) : String :=
  ⟨List.intercalate sep.data (xs.map (·.data))⟩

/-- One iteration of the ToolCallingAgent.Run loop body after the
cancellation check (part_004 lines 151-192).  Returns the updated state and
the step's IsFinal flag. -/
def tcStep (a : BaseAgent) (env : ModelEnv) (i : Nat) (st : RunState) :
    RunState × Bool :=
  let (t0, st) := st.now
  match env.respond i with
  | .error e =>
      let (t1, st) := st.now
      let as : ActionStep := { stepNumber := i, timing := ⟨t0, some t1⟩, error := some e }
      (st.addStep (.action as), false)
  | .ok resp =>
      let base : ActionStep :=
        { stepNumber := i, timing := ⟨t0, none⟩,
          modelOutput := resp.content, tokenUsage := resp.tokenUsage }
      if resp.toolCalls.isEmpty then
        let (t1, st) := st.now
        let as := { base with timing := ⟨t0, some t1⟩ }
        let st := (st.addStep (.action as)).triggerCbs a.callbacks (.action as)
        (st, false)
      else
        let br := processToolCalls a resp.toolCalls ⟨[], false, st.finalOutput⟩
        let (t1, st) := st.now
        let as := { base with
          toolCalls := resp.toolCalls,
          observations := goJoin br.observations "\n",
          isFinal := br.isFinal,
          timing := ⟨t0, some t1⟩ }
        let st := (st.addStep (.action as)).triggerCbs a.callbacks (.action as)
        ({ st with finalOutput := br.finalOutput }, br.isFinal)

/-- The shared run-loop skeleton (part_004 lines 146-193 and 317-363):
iterate step numbers up to the budget, checking cancellation at each step
boundary; a final step appends the FinalAnswer step and stops.  `fuel` is
the number of steps left in the budget, `i` the current step number. -/
def runLoop (stepFn : Nat → RunState → RunState × Bool) (cancelled : Nat → Bool) :
    Nat → Nat → RunState → Except String RunState
  | 0, _, st => .ok st
  | fuel + 1, i, st =>
      if cancelled i then .error "context canceled"
      else
        let (st', fin) := stepFn i st
        if fin then .ok (st'.addStep (.finalAnswer st'.finalOutput))
        else runLoop stepFn cancelled fuel (i + 1) st'

/-- RunResult (part_000): output, terminal state tag, step log, tokens. -/
structure RunResult where
  output : Option Val
  state : String
  steps : List Step
  tokenUsage : TokenUsage
deriving Repr, DecidableEq

/-- Shared tail of both Run functions (part_004 lines 195-206 / 365-376):
absent output means the budget was exhausted. -/
def RunState.toResult (st : RunState) : RunResult :=
  { output := st.finalOutput,
    state := if st.finalOutput = none then "max_steps_error" else "success",
    steps := st.memory.steps,
    tokenUsage := st.memory.TotalTokens }

/-- ToolCallingAgent.Run (part_004 lines 128-207), with the clock and
trace instrumentation; `mem0` is the memory before the run, `reset` the
RunOptions.Reset flag (default true in the source). -/
def ToolCallingAgentRunState (a : BaseAgent) (env : ModelEnv) (task : String)
    (maxSteps : Nat) (reset : Bool) (mem0 : Memory) (images : List (List Nat)) :
    Except String RunState :=
  let st0 : RunState := ⟨mem0, none, 0, []⟩
  let (_, st) := st0.now
  let st := if reset then { st with memory := st.memory.Reset } else st
  let st := st.addStep (.task task images)
  runLoop (tcStep a env) env.cancelled maxSteps 1 st

/-- ToolCallingAgent.Run projected to its returned RunResult. -/
def ToolCallingAgentRun (a : BaseAgent) (env : ModelEnv) (task : String)
    (maxSteps : Nat) (reset : Bool) (mem0 : Memory) (images : List (List Nat)) :
    Except String RunResult :=
  (ToolCallingAgentRunState a env task maxSteps reset mem0 images).map RunState.toResult

/-! ## String primitives (models of Go `strings` functions) -/

/-- Index of the first occurrence of `pat` in `hay` (Go `strings.Index`). -/
def indexOfSub (hay pat : List Char) : Option Nat :=
  match hay with
  | [] => if pat.isEmpty then some 0 else none
  | _ :: tl => if pat.isPrefixOf hay then some 0 else (indexOfSub tl pat).map (· + 1)

/-- Go `strings.Contains`. -/
def containsSub (s pat : String) : Bool :=
  (indexOfSub s.data pat.data).isSome

/-- Go `strings.HasPrefix`. -/
def goStartsWith (s pat : String) : Bool :=
  pat.data.isPrefixOf s.data

/-- Go `strings.TrimSpace` restricted to ASCII whitespace
(space, tab, carriage return, newline): drop leading and trailing
whitespace characters. -/
def trimChars (cs : List Char) : List Char :=
  ((cs.dropWhile Char.isWhitespace).reverse.dropWhile Char.isWhitespace).reverse

/-- Go `strings.TrimSpace` on strings. -/
def goTrimSpace (s : String) : String :=
  ⟨trimChars s.data⟩

/-- Go `strings.Split(s, "\n")` at the character-list level: always returns
at least one (possibly empty) line. -/
def splitNl (cs : List Char) : List (List Char) :=
  cs.splitOn '\n'

/-- Go `strings.Split(s, "\n")` on strings. -/
def goSplitLines (s : String) : List String :=
  (splitNl s.data).map (fun cs => ⟨cs⟩)

/-! ## Code-block extraction (part_004 lines 379-397) -/

/-- First capture of Go regexp `(?s)<code>(.*?)(?:</code>|$)` under
leftmost-first matching: the text between the first `<code>` and the
earliest following `</code>`, or to the end of input when the closing tag
is missing; `none` when no `<code>` occurs. -/
def extractTagged (text : String) : Option String :=
  match indexOfSub text.data "<code>".data with
  | none => none
  | some i =>
      let rest := text.data.drop (i + 6)
      match indexOfSub rest "</code>".data with
      | none => some ⟨rest⟩
      | some j => some ⟨rest.take j⟩

/-- The optional `(?:python|py)?\n?` run after an opening fence:
alternatives tried in order, each greedy. -/
def fencedConsume (rest : List Char) : List Char :=
  let rest :=
    if "python".data.isPrefixOf rest then rest.drop 6
    else if "py".data.isPrefixOf rest then rest.drop 2
    else rest
  if rest.head? = some '\n' then rest.tail else rest

/-- First capture of Go regexp `(?s)` + fence + `(?:python|py)?\n?(.*?)` +
(closing fence or end) under leftmost-first matching. -/
def extractFenced (text : String) : Option String :=
  match indexOfSub text.data "```".data with
  | none => none
  | some i =>
      let rest := fencedConsume (text.data.drop (i + 3))
      match indexOfSub rest "```".data with
      | none => some ⟨rest⟩
      | some j => some ⟨rest.take j⟩

/-- parseCodeBlock (part_004 lines 379-393): `<code>` pattern first
(tolerant of a missing closing tag), then the fenced pattern; a match
counts only when non-empty after trimming; otherwise `""`. -/
def parseCodeBlock (text : String) : String :=
  let tagged :=
    match extractTagged text with
    | some m => goTrimSpace m
    | none => ""
  if tagged ≠ "" then tagged
  else
    match extractFenced text with
    | some m => if goTrimSpace m ≠ "" then goTrimSpace m else ""
    | none => ""

/-- isFinalAnswer (part_004 lines 395-397): substring containment of
`final_answer(`. -/
def isFinalAnswer (code : String) : Bool :=
  containsSub code "final_answer("

/-! ## CodeAgent (part_004 lines 264-377) -/

/-- The CodeExecutor interface result triple (part_004 lines 260-262):
output-or-absent, captured log text, error-or-nil. -/
structure ExecOutcome where
  output : Option Val
  logs : String
  error : Option String
deriving Repr, DecidableEq

/-- Environment of a code-agent run: the model plus the executor's outcome
per step number and code string (the executor only reads the execution
state map, so it is folded into this oracle). -/
structure CodeEnv extends ModelEnv where
  exec : Nat → String → ExecOutcome

/-- One iteration of the CodeAgent.Run loop body after the cancellation
check (part_004 lines 322-362).  A model failure or a missing code block is
appended without timing finalization and without triggering callbacks
(source lines 326-330 and 336-340). -/
def codeStep (a : BaseAgent) (env : CodeEnv) (i : Nat) (st : RunState) :
    RunState × Bool :=
  let (t0, st) := st.now
  match env.respond i with
  | .error e =>
      let as : ActionStep := { stepNumber := i, timing := ⟨t0, none⟩, error := some e }
      (st.addStep (.action as), false)
  | .ok resp =>
      let base : ActionStep :=
        { stepNumber := i, timing := ⟨t0, none⟩,
          modelOutput := resp.content, tokenUsage := resp.tokenUsage }
      let code := parseCodeBlock resp.content
      if code = "" then
        let as := { base with error := some "no code block found" }
        (st.addStep (.action as), false)
      else
        let r := env.exec i code
        let (as, fo, fin) :=
          match r.error with
          | some e =>
              ({ base with codeAction := code, error := some e, observations := r.logs },
               st.finalOutput, false)
          | none =>
              if isFinalAnswer code then
                ({ base with codeAction := code, observations := r.logs, isFinal := true },
                 r.output, true)
              else
                ({ base with codeAction := code, observations := r.logs },
                 st.finalOutput, false)
        let (t1, st) := st.now
        let as := { as with timing := ⟨t0, some t1⟩ }
        let st := (st.addStep (.action as)).triggerCbs a.callbacks (.action as)
        ({ st with finalOutput := fo }, fin)

/-- CodeAgent.Run (part_004 lines 298-377), with the clock and trace
instrumentation. -/
def CodeAgentRunState (a : BaseAgent) (env : CodeEnv) (task : String)
    (maxSteps : Nat) (reset : Bool) (mem0 : Memory) : Except String RunState :=
  let st0 : RunState := ⟨mem0, none, 0, []⟩
  let (_, st) := st0.now
  let st := if reset then { st with memory := st.memory.Reset } else st
  let st := st.addStep (.task task [])
  runLoop (codeStep a env) env.cancelled maxSteps 1 st

/-- CodeAgent.Run projected to its returned RunResult. -/
def CodeAgentRun (a : BaseAgent) (env : CodeEnv) (task : String)
    (maxSteps : Nat) (reset : Bool) (mem0 : Memory) : Except String RunResult :=
  (CodeAgentRunState a env task maxSteps reset mem0).map RunState.toResult

/-! ## Executors (part_002) -/

/-- Outcome of the underlying subprocess as raced against the timer:
either `cmd.Run()` finishes within the deadline (with exit error, stdout
and stderr), or the deadline fires first; in the latter case the process's
eventual output, which the implementation must discard, is still carried
so that independence from it is provable. -/
inductive ProcOutcome where
  | completes (exitError : Option String) (stdout stderr : String)
  | timesOut (lateStdout lateStderr : String)
deriving Repr, DecidableEq

/-- What an executor's Execute call returns, plus whether the
implementation forcibly terminated the subprocess on the timeout path
(`cmd.Process.Kill()`). -/
structure ExecReturn where
  output : Option Val
  logs : String
  error : Option String
  killed : Bool
deriving Repr, DecidableEq

/-- PythonExecutor.Execute (part_002 lines 51-90).  `jsonDec` abstracts
`json.Unmarshal` into `any` (`none` models a failed unmarshal, which the
source ignores, leaving the result nil).  `timeoutStr` is the rendering of
the configured timeout in the timeout error message. -/
def PythonExecutorExecute (jsonDec : String → Option Val) (timeoutStr : String)
    (outcome : ProcOutcome) : ExecReturn :=
  match outcome with
  | .completes exitErr stdout stderr =>
      let logs := stdout
      match exitErr with
      | some msg => { output := none, logs := logs, error := some (msg ++ ": " ++ stderr), killed := false }
      | none =>
          let lines := goSplitLines (goTrimSpace logs)
          match lines.getLast? with
          | none => { output := none, logs := logs, error := none, killed := false }
          | some lastLine =>
              if goStartsWith lastLine "__RESULT__:" then
                let resultJSON : String := ⟨lastLine.data.drop 11⟩
                { output := jsonDec resultJSON, logs := goJoin lines.dropLast "\n",
                  error := none, killed := false }
              else
                { output := none, logs := logs, error := none, killed := false }
  | .timesOut _ _ =>
      { output := none, logs := "",
        error := some ("execution timeout after " ++ timeoutStr), killed := true }

/-- DockerExecutor.Execute (part_002 lines 139-190).  The timeout branch
(lines 187-189) returns without killing the container process. -/
def DockerExecutorExecute (jsonDec : String → Option Val)
    (outcome : ProcOutcome) : ExecReturn :=
  match outcome with
  | .completes exitErr stdout stderr =>
      let logs := stdout
      match exitErr with
      | some msg => { output := none, logs := logs, error := some (msg ++ ": " ++ stderr), killed := false }
      | none =>
          let lines := goSplitLines (goTrimSpace logs)
          match lines.getLast? with
          | some lastLine =>
              if goStartsWith lastLine "__RESULT__:" then
                let resultJSON : String := ⟨lastLine.data.drop 11⟩
                { output := jsonDec resultJSON, logs := goJoin lines.dropLast "\n",
                  error := none, killed := false }
              else
                { output := none, logs := logs, error := none, killed := false }
          | none => { output := none, logs := logs, error := none, killed := false }
  | .timesOut _ _ =>
      { output := none, logs := "", error := some "docker execution timeout", killed := false }

/-! ## Lemmas about the tool-call batch loop -/

/-- The observation line a single dispatched call contributes
(part_004 lines 171-175). -/
def dispatchObservation (a : BaseAgent) (tc : ToolCall) : String :=
  match a.executeTool tc with
  | .ok result => formatAny result
  | .error e => "Error executing " ++ tc.name ++ ": " ++ e

theorem processToolCalls_append (a : BaseAgent) (xs ys : List ToolCall) (acc : BatchAcc) :
    processToolCalls a (xs ++ ys) acc = processToolCalls a ys (processToolCalls a xs acc) := by
  induction xs generalizing acc with
  | nil => simp [processToolCalls]
  | cons tc rest ih => simp only [List.cons_append, processToolCalls]; exact ih _

theorem processToolCalls_observations (a : BaseAgent) (tcs : List ToolCall) (acc : BatchAcc) :
    (processToolCalls a tcs acc).observations =
      acc.observations ++ tcs.map (dispatchObservation a) := by
  induction tcs generalizing acc with
  | nil => simp [processToolCalls]
  | cons tc rest ih =>
      simp only [processToolCalls, dispatchObservation, List.map_cons]
      cases h : a.executeTool tc with
      | error e => rw [ih]; simp [h]
      | ok result =>
          by_cases hn : tc.name = "final_answer" <;> simp [hn, ih, h]

theorem processToolCalls_no_final (a : BaseAgent) (tcs : List ToolCall) (acc : BatchAcc)
    (h : ∀ tc ∈ tcs, tc.name ≠ "final_answer") :
    (processToolCalls a tcs acc).isFinal = acc.isFinal ∧
    (processToolCalls a tcs acc).finalOutput = acc.finalOutput := by
  induction tcs generalizing acc with
  | nil => simp [processToolCalls]
  | cons tc rest ih =>
      have hname : tc.name ≠ "final_answer" := h tc (by simp)
      have hrest : ∀ tc' ∈ rest, tc'.name ≠ "final_answer" := fun tc' h' => h tc' (by simp [h'])
      simp only [processToolCalls]
      cases hex : a.executeTool tc with
      | error e => exact ih _ hrest
      | ok result => simp only [hname, if_false]; exact ih _ hrest

/-- A successful `final_answer` call inside a batch whose later calls are
not named `final_answer` leaves the step final with that call's result as
the run output (part_004 lines 170-181, last final-answer write wins). -/
theorem processToolCalls_final (a : BaseAgent) (fc : ToolCall) (post : List ToolCall)
    (acc : BatchAcc) (res : Option Val)
    (hname : fc.name = "final_answer")
    (hexec : a.executeTool fc = .ok res)
    (hpost : ∀ tc ∈ post, tc.name ≠ "final_answer") :
    (processToolCalls a (fc :: post) acc).isFinal = true ∧
    (processToolCalls a (fc :: post) acc).finalOutput = res := by
  simp only [processToolCalls, hexec, hname, if_true]
  exact processToolCalls_no_final a post _ hpost

/-! ## Lemmas about one tool-calling step and the run loop -/

/-- A step whose model response never names `final_answer` (or fails) is
not final: it appends exactly one Action step and leaves the run-level
output untouched. -/
theorem tcStep_not_final (a : BaseAgent) (env : ModelEnv) (i : Nat) (st : RunState)
    (h : ∀ r, env.respond i = .ok r → ∀ tc ∈ r.toolCalls, tc.name ≠ "final_answer") :
    (tcStep a env i st).2 = false ∧
    (∃ as, (tcStep a env i st).1.memory.steps = st.memory.steps ++ [Step.action as]) ∧
    (tcStep a env i st).1.finalOutput = st.finalOutput := by
  cases hr : env.respond i with
  | error e =>
      simp only [tcStep, hr, RunState.now, RunState.addStep, Memory.AddStep]
      exact ⟨trivial, ⟨_, rfl⟩, trivial⟩
  | ok resp =>
      have hnf := h resp hr
      by_cases hte : resp.toolCalls.isEmpty
      · simp only [tcStep, hr, hte, if_true, RunState.now, RunState.addStep,
          RunState.triggerCbs, Memory.AddStep]
        exact ⟨trivial, ⟨_, rfl⟩, trivial⟩
      · have hpf := processToolCalls_no_final a resp.toolCalls
          ⟨[], false, st.finalOutput⟩ hnf
        simp only [tcStep, hr, hte, if_false, RunState.now, RunState.addStep,
          RunState.triggerCbs, Memory.AddStep, Bool.false_eq_true]
        exact ⟨hpf.1, ⟨_, rfl⟩, hpf.2⟩

/-- Run-loop invariant: a step function that never finalizes and appends
exactly one Action step per iteration exhausts the whole budget, returns
without error, preserves the run-level output, and appends exactly `fuel`
Action steps. -/
theorem runLoop_no_final (stepFn : Nat → RunState → RunState × Bool)
    (cancelled : Nat → Bool)
    (hcancel : ∀ i, cancelled i = false)
    (hstep : ∀ i st, (stepFn i st).2 = false ∧
      (∃ as, (stepFn i st).1.memory.steps = st.memory.steps ++ [Step.action as]) ∧
      (stepFn i st).1.finalOutput = st.finalOutput) :
    ∀ (fuel i : Nat) (st : RunState),
      ∃ st', runLoop stepFn cancelled fuel i st = .ok st' ∧
        st'.finalOutput = st.finalOutput ∧
        ∃ acts, st'.memory.steps = st.memory.steps ++ acts ∧
          acts.length = fuel ∧ ∀ s ∈ acts, ∃ as, s = Step.action as := by
  intro fuel
  induction fuel with
  | zero =>
      intro i st
      exact ⟨st, rfl, rfl, [], by simp, rfl, by simp⟩
  | succ n ih =>
      intro i st
      obtain ⟨hfin, ⟨as, hmem⟩, hout⟩ := hstep i st
      obtain ⟨st', hrun, hout', acts, hacts, hlen, hall⟩ := ih (i + 1) (stepFn i st).1
      refine ⟨st', ?_, by rw [hout', hout], Step.action as :: acts, ?_, by simp [hlen], ?_⟩
      · simp only [runLoop, hcancel i, if_false]
        rw [show (stepFn i st) = ((stepFn i st).1, (stepFn i st).2) from rfl, hfin]
        simpa using hrun
      · rw [hacts, hmem]; simp
      · intro s hs
        rcases List.mem_cons.mp hs with h | h
        · exact ⟨as, h⟩
        · exact hall s h

/-! ## C1: budget exhaustion in the tool-calling variant -/

/-- C1: a tool-calling run with step budget N in which no step's response
names the reserved `final_answer` tool (so no step is marked final)
terminates with state tag "max_steps_error" (Exhausted), absent output,
and a step log of exactly one Task step followed by exactly N Action
steps. -/
theorem C1_budget_exhaustion (a : BaseAgent) (env : ModelEnv) (task : String)
    (images : List (List Nat)) (mem0 : Memory) (N : Nat)
    (hcancel : ∀ i, env.cancelled i = false)
    (hnofinal : ∀ i r, env.respond i = .ok r → ∀ tc ∈ r.toolCalls, tc.name ≠ "final_answer") :
    ∃ res : RunResult, ToolCallingAgentRun a env task N true mem0 images = .ok res ∧
      res.state = "max_steps_error" ∧
      res.output = none ∧
      ∃ acts, res.steps = Step.task task images :: acts ∧
        acts.length = N ∧ ∀ s ∈ acts, ∃ as, s = Step.action as := by
  obtain ⟨st', hrun, hout, acts, hacts, hlen, hall⟩ :=
    runLoop_no_final (tcStep a env) env.cancelled hcancel
      (fun i st => tcStep_not_final a env i st (hnofinal i)) N 1
      ⟨⟨mem0.systemPrompt, [Step.task task images]⟩, none, 1, [.appended (.task task images)]⟩
  refine ⟨st'.toResult, ?_, ?_, ?_, acts, ?_, hlen, hall⟩
  · unfold ToolCallingAgentRun ToolCallingAgentRunState
    simp only [RunState.now, RunState.addStep, Memory.Reset, Memory.AddStep, if_true,
      List.nil_append]
    rw [hrun]
    rfl
  · simp [RunState.toResult, hout]
  · simp [RunState.toResult, hout]
  · simp only [RunState.toResult]
    rw [hacts]
    simp

/-- The Action step a tool-calling iteration records when the response
carries a non-empty batch of tool calls. -/
def tcBatchActionStep (a : BaseAgent) (i : Nat) (st : RunState) (r : ModelResponse) :
    ActionStep :=
  { stepNumber := i, timing := ⟨st.clock, some (st.clock + 1)⟩,
    modelOutput := r.content, tokenUsage := r.tokenUsage,
    toolCalls := r.toolCalls,
    observations := goJoin (processToolCalls a r.toolCalls ⟨[], false, st.finalOutput⟩).observations "\n",
    isFinal := (processToolCalls a r.toolCalls ⟨[], false, st.finalOutput⟩).isFinal }

/-- Full characterization of a tool-calling iteration on a successful
response with a non-empty tool-call batch. -/
theorem tcStep_batch_eq (a : BaseAgent) (env : ModelEnv) (i : Nat) (st : RunState)
    (r : ModelResponse) (hr : env.respond i = .ok r) (hne : r.toolCalls.isEmpty = false) :
    tcStep a env i st =
      ({ memory := st.memory.AddStep (.action (tcBatchActionStep a i st r)),
         finalOutput := (processToolCalls a r.toolCalls ⟨[], false, st.finalOutput⟩).finalOutput,
         clock := st.clock + 2,
         trace := (st.trace ++ [.appended (.action (tcBatchActionStep a i st r))])
           ++ (a.callbacks.Trigger (.action (tcBatchActionStep a i st r))).map
                (fun cb => .invoked cb (.action (tcBatchActionStep a i st r))) },
       (processToolCalls a r.toolCalls ⟨[], false, st.finalOutput⟩).isFinal) := by
  simp only [tcStep, hr, hne, RunState.now, RunState.addStep, RunState.triggerCbs,
    Memory.AddStep, tcBatchActionStep, Bool.false_eq_true, if_false]

/-- Dispatch of the reserved final-answer tool: with no managed agent
shadowing the name and the registry resolving it to `FinalAnswerTool`, a
call whose arguments contain "answer" yields that value. -/
theorem executeTool_final_answer (a : BaseAgent) (tc : ToolCall) (ans : Option Val)
    (hshadow : a.managedAgents.find? (fun p => p.1 = tc.name) = none)
    (hget : a.tools.Get tc.name = some FinalAnswerTool)
    (hans : lookupArg tc.arguments "answer" = some ans) :
    a.executeTool tc = .ok ans := by
  simp [BaseAgent.executeTool, hshadow, hget, FinalAnswerTool, hans]

/-! ## C2: immediate final answer in the tool-calling variant -/

/-- C2 amended: a tool-calling run whose first response succeeds and
carries a well-formed `final_answer` tool call whose result is non-nil
(its "answer" argument present and non-null) terminates with state tag
"success" (Completed); the step log is exactly one Task step, one final
Action step, and one FinalAnswer step carrying the final-answer tool's
result, which is also the RunResult's output.  (When the result is nil the
step is still final but the run reports "max_steps_error" with absent
output — see the counterexample.) -/
theorem C2_immediate_final (a : BaseAgent) (env : ModelEnv) (task : String)
    (images : List (List Nat)) (mem0 : Memory) (maxSteps : Nat) (r : ModelResponse)
    (pre post : List ToolCall) (fc : ToolCall) (v : Val)
    (hms : 1 ≤ maxSteps)
    (hc1 : env.cancelled 1 = false)
    (hr : env.respond 1 = .ok r)
    (hbatch : r.toolCalls = pre ++ fc :: post)
    (hfc : fc.name = "final_answer")
    (hshadow : a.managedAgents.find? (fun p => p.1 = fc.name) = none)
    (hget : a.tools.Get "final_answer" = some FinalAnswerTool)
    (hans : lookupArg fc.arguments "answer" = some (some v))
    (hpre : ∀ tc ∈ pre, tc.name ≠ "final_answer")
    (hpost : ∀ tc ∈ post, tc.name ≠ "final_answer") :
    ∃ res : RunResult, ∃ as : ActionStep,
      ToolCallingAgentRun a env task maxSteps true mem0 images = .ok res ∧
      res.state = "success" ∧
      res.output = some v ∧
      res.steps = [Step.task task images, Step.action as, Step.finalAnswer (some v)] ∧
      as.isFinal = true := by
  obtain ⟨m, rfl⟩ : ∃ m, maxSteps = m + 1 := ⟨maxSteps - 1, by omega⟩
  have hexec : a.executeTool fc = .ok (some v) := by
    refine executeTool_final_answer a fc (some v) hshadow ?_ hans
    rw [hfc]; exact hget
  set st1 : RunState :=
    ⟨⟨mem0.systemPrompt, [Step.task task images]⟩, none, 1, [.appended (.task task images)]⟩ with hst1
  have hne : r.toolCalls.isEmpty = false := by
    rw [hbatch]; cases pre <;> simp
  have hbr := processToolCalls_append a pre (fc :: post) ⟨[], false, st1.finalOutput⟩
  have hfin := processToolCalls_final a fc post
    (processToolCalls a pre ⟨[], false, st1.finalOutput⟩) (some v) hfc hexec hpost
  have hbrFinal : (processToolCalls a r.toolCalls ⟨[], false, st1.finalOutput⟩).isFinal = true := by
    rw [hbatch, hbr]; exact hfin.1
  have hbrOut : (processToolCalls a r.toolCalls ⟨[], false, st1.finalOutput⟩).finalOutput = some v := by
    rw [hbatch, hbr]; exact hfin.2
  have hstep := tcStep_batch_eq a env 1 st1 r hr hne
  rw [hbrFinal, hbrOut] at hstep
  set A := tcBatchActionStep a 1 st1 r with hA
  set S : RunState :=
    { memory := st1.memory.AddStep (.action A),
      finalOutput := some v,
      clock := st1.clock + 2,
      trace := (st1.trace ++ [.appended (.action A)])
        ++ (a.callbacks.Trigger (.action A)).map (fun cb => .invoked cb (.action A)) } with hS
  have hloop : runLoop (tcStep a env) env.cancelled (m + 1) 1 st1 =
      .ok (S.addStep (.finalAnswer (some v))) := by
    rw [runLoop, hc1]
    simp only [Bool.false_eq_true, if_false, hstep, if_true]
  have hrunResult : ToolCallingAgentRun a env task (m + 1) true mem0 images =
      .ok ((S.addStep (.finalAnswer (some v))).toResult) := by
    unfold ToolCallingAgentRun ToolCallingAgentRunState
    simp only [RunState.now, RunState.addStep, Memory.Reset, Memory.AddStep, if_true,
      List.nil_append]
    rw [← hst1, hloop]
    rfl
  refine ⟨_, A, hrunResult, rfl, rfl, rfl, ?_⟩
  simp only [hA, tcBatchActionStep]
  exact hbrFinal

/-! ## Concrete fixtures for witnesses and counterexamples -/

/-- A tool-calling agent as `NewToolCallingAgent` builds it: the reserved
final-answer tool registered, no managed agents, one "all" callback. -/
def wAgent : BaseAgent :=
  { tools := NewToolRegistry.Register FinalAnswerTool,
    managedAgents := [],
    callbacks := NewCallbackRegistry.Register "all" 0,
    systemPrompt := "sys" }

/-- A model reply with text only, no tool calls. -/
def wRespPlain : ModelResponse :=
  { content := "hi" }

/-- An environment that always answers with plain text and is never
cancelled. -/
def wEnvPlain : ModelEnv :=
  { respond := fun _ => .ok wRespPlain,
    cancelled := fun _ => false }

/-- C1 witness: budget 2, a model that never emits tool calls. -/
theorem C1_budget_exhaustion_witness :
    ∃ res : RunResult,
      ToolCallingAgentRun wAgent wEnvPlain "t" 2 true (NewMemory "sys") [] = .ok res ∧
      res.state = "max_steps_error" ∧
      res.output = none ∧
      ∃ acts, res.steps = Step.task "t" [] :: acts ∧
        acts.length = 2 ∧ ∀ s ∈ acts, ∃ as, s = Step.action as :=
  C1_budget_exhaustion wAgent wEnvPlain "t" [] (NewMemory "sys") 2
    (fun _ => rfl)
    (fun _ r h tc htc => by
      have hr : r = wRespPlain := by injection h with h2; exact h2.symm
      subst hr
      simp [wRespPlain] at htc)

/-- A model reply whose single tool call is a well-formed `final_answer`
with a non-null answer. -/
def wRespFinal : ModelResponse :=
  { content := "hi",
    toolCalls := [⟨"1", "final_answer", [("answer", some (.vStr "42"))]⟩] }

/-- An environment that always answers with that final-answer call. -/
def wEnvFinal : ModelEnv :=
  { respond := fun _ => .ok wRespFinal,
    cancelled := fun _ => false }

/-- C2 witness: budget 3, first response carries `final_answer("42")`. -/
theorem C2_immediate_final_witness :
    ∃ res : RunResult, ∃ as : ActionStep,
      ToolCallingAgentRun wAgent wEnvFinal "t" 3 true (NewMemory "sys") [] = .ok res ∧
      res.state = "success" ∧
      res.output = some (.vStr "42") ∧
      res.steps = [Step.task "t" [], Step.action as, Step.finalAnswer (some (.vStr "42"))] ∧
      as.isFinal = true :=
  C2_immediate_final wAgent wEnvFinal "t" [] (NewMemory "sys") 3 wRespFinal
    [] [] ⟨"1", "final_answer", [("answer", some (.vStr "42"))]⟩ (.vStr "42")
    (by omega) rfl rfl rfl rfl rfl rfl rfl
    (fun tc h => absurd h (List.not_mem_nil tc))
    (fun tc h => absurd h (List.not_mem_nil tc))

/-- A response whose final_answer call carries a JSON-null answer: the
"answer" key is present but its value is the nil interface. -/
def wRespNullFinal : ModelResponse :=
  { content := "hi",
    toolCalls := [⟨"1", "final_answer", [("answer", none)]⟩] }

/-- Environment for the null-answer counterexample. -/
def wEnvNullFinal : ModelEnv :=
  { respond := fun _ => .ok wRespNullFinal,
    cancelled := fun _ => false }

/-- C2 counterexample: the first response carries a `final_answer` call
whose "answer" argument is present but null.  `FinalAnswerTool.Execute`
succeeds (tool.go lines 165-171: the key is present) and returns nil; the
Action step IS marked final and a FinalAnswerStep is appended, yet
`finalOutput` stays nil, so Run reports state "max_steps_error" and absent
output (part_004 lines 176-179 and 195-197) — refuting the claim that
every such run terminates with Completed ("success"). -/
theorem C2_counterexample :
    ToolCallingAgentRun wAgent wEnvNullFinal "t" 3 true (NewMemory "sys") [] =
      .ok { output := none, state := "max_steps_error",
            steps := [Step.task "t" [],
              Step.action { stepNumber := 1, timing := ⟨1, some 2⟩, modelOutput := "hi",
                            toolCalls := [⟨"1", "final_answer", [("answer", none)]⟩],
                            observations := "<nil>", isFinal := true },
              Step.finalAnswer none],
            tokenUsage := ⟨0, 0⟩ } := rfl

/-! ## C6: dispatch resolution order, unknown tools, batch isolation -/

/-- C6: dispatch resolves a call against the registered nested agents
first and only then the plain tool registry; a name found in neither
yields an "unknown tool" error; an erroring call contributes an
"Error executing <name>: <msg>" observation line; and every call in a
batch is dispatched, its observation recorded in call order. -/
theorem C6_dispatch_resolution :
    (∀ (a : BaseAgent) (tc : ToolCall) (ma : ManagedAgent),
        (a.managedAgents.find? (fun p => p.1 = tc.name)).map (·.2) = some ma →
        a.executeTool tc = ma.run (argAsString ((lookupArg tc.arguments "task").join))) ∧
    (∀ (a : BaseAgent) (tc : ToolCall),
        a.managedAgents.find? (fun p => p.1 = tc.name) = none →
        a.tools.Get tc.name = none →
        a.executeTool tc = .error ("unknown tool: " ++ tc.name)) ∧
    (∀ (a : BaseAgent) (tc : ToolCall) (e : String),
        a.executeTool tc = .error e →
        dispatchObservation a tc = "Error executing " ++ tc.name ++ ": " ++ e) ∧
    (∀ (a : BaseAgent) (env : ModelEnv) (i : Nat) (st : RunState) (r : ModelResponse),
        env.respond i = .ok r → r.toolCalls.isEmpty = false →
        ∃ as : ActionStep,
          (tcStep a env i st).1.memory.steps = st.memory.steps ++ [Step.action as] ∧
          as.toolCalls = r.toolCalls ∧
          as.observations = goJoin (r.toolCalls.map (dispatchObservation a)) "\n") := by
  refine ⟨?_, ?_, ?_, ?_⟩
  · intro a tc ma h
    simp only [BaseAgent.executeTool, h]
  · intro a tc hma ht
    simp [BaseAgent.executeTool, hma, ht]
  · intro a tc e h
    simp only [dispatchObservation, h]
  · intro a env i st r hr hne
    refine ⟨tcBatchActionStep a i st r, ?_, rfl, ?_⟩
    · rw [tcStep_batch_eq a env i st r hr hne]
      rfl
    · simp only [tcBatchActionStep]
      rw [processToolCalls_observations]
      simp

/-- A plain echo tool for the dispatch fixtures. -/
def echoTool : Tool :=
  ⟨"echo", fun args => .ok (some (.vStr (argAsString ((lookupArg args "text").join))))⟩

/-- An agent with one managed agent ("sub") and one plain tool ("echo");
the registry also holds a tool named "sub" that the managed agent must
shadow. -/
def wAgentDispatch : BaseAgent :=
  { tools := ((NewToolRegistry.Register FinalAnswerTool).Register echoTool).Register
      ⟨"sub", fun _ => .ok (some (.vStr "from the plain tool"))⟩,
    managedAgents := [("sub", ⟨fun t => .ok (some (.vStr ("sub answered: " ++ t)))⟩)],
    callbacks := NewCallbackRegistry,
    systemPrompt := "sys" }

/-- A batch with an unknown name between two resolvable calls. -/
def wRespBatch : ModelResponse :=
  { content := "x",
    toolCalls := [⟨"1", "sub", [("task", some (.vStr "go"))]⟩,
                  ⟨"2", "missing", []⟩,
                  ⟨"3", "echo", [("text", some (.vStr "hi"))]⟩] }

/-- The dispatch environment: one successful response carrying the batch. -/
def wEnvBatch : ModelEnv :=
  { respond := fun _ => .ok wRespBatch,
    cancelled := fun _ => false }

/-- An arbitrary run state for single-step witnesses. -/
def wState : RunState :=
  ⟨NewMemory "sys", none, 0, []⟩

/-- C6 witness: the managed agent shadows the equally named plain tool, an
unknown name errors without aborting its siblings, and the three
observation lines appear in call order. -/
theorem C6_dispatch_resolution_witness :
    wAgentDispatch.executeTool ⟨"1", "sub", [("task", some (.vStr "go"))]⟩ =
      .ok (some (.vStr "sub answered: go")) ∧
    wAgentDispatch.executeTool ⟨"2", "missing", []⟩ = .error "unknown tool: missing" ∧
    (∃ as : ActionStep,
      (tcStep wAgentDispatch wEnvBatch 1 wState).1.memory.steps =
        wState.memory.steps ++ [Step.action as] ∧
      as.toolCalls = wRespBatch.toolCalls ∧
      as.observations =
        goJoin (wRespBatch.toolCalls.map (dispatchObservation wAgentDispatch)) "\n") :=
  ⟨C6_dispatch_resolution.1 wAgentDispatch ⟨"1", "sub", [("task", some (.vStr "go"))]⟩
      ⟨fun t => .ok (some (.vStr ("sub answered: " ++ t)))⟩ rfl,
   C6_dispatch_resolution.2.1 wAgentDispatch ⟨"2", "missing", []⟩ rfl rfl,
   C6_dispatch_resolution.2.2.2 wAgentDispatch wEnvBatch 1 wState wRespBatch rfl rfl⟩

/-! ## C10: an erroring final_answer call does not finalize the run -/

theorem goJoin_singleton (s sep : String) : goJoin [s] sep = s := by
  cases s
  simp [goJoin, List.intercalate]

/-- C10: a dispatched `final_answer` call whose execution errors (here:
the required "answer" argument is absent) does not mark the Action step
final and does not set the run output; the error is recorded as an
observation line and the loop continues with the next step number. -/
theorem C10_failed_final_answer (a : BaseAgent) (env : ModelEnv) (i : Nat) (st : RunState)
    (r : ModelResponse) (fc : ToolCall)
    (hr : env.respond i = .ok r)
    (hbatch : r.toolCalls = [fc])
    (hfc : fc.name = "final_answer")
    (hshadow : a.managedAgents.find? (fun p => p.1 = fc.name) = none)
    (hget : a.tools.Get "final_answer" = some FinalAnswerTool)
    (hans : lookupArg fc.arguments "answer" = none) :
    (tcStep a env i st).2 = false ∧
    (tcStep a env i st).1.finalOutput = st.finalOutput ∧
    (∃ as : ActionStep,
      (tcStep a env i st).1.memory.steps = st.memory.steps ++ [Step.action as] ∧
      as.isFinal = false ∧
      as.observations = "Error executing final_answer: missing required argument: answer") ∧
    (∀ fuel : Nat, env.cancelled i = false →
      runLoop (tcStep a env) env.cancelled (fuel + 1) i st =
        runLoop (tcStep a env) env.cancelled fuel (i + 1) (tcStep a env i st).1) := by
  have hexec : a.executeTool fc = .error "missing required argument: answer" := by
    have hget' : a.tools.Get fc.name = some FinalAnswerTool := by rw [hfc]; exact hget
    simp [BaseAgent.executeTool, hshadow, hget', FinalAnswerTool, hans]
  have hne : r.toolCalls.isEmpty = false := by rw [hbatch]; rfl
  have hbr : processToolCalls a r.toolCalls ⟨[], false, st.finalOutput⟩ =
      ⟨["Error executing final_answer: missing required argument: answer"], false,
        st.finalOutput⟩ := by
    rw [hbatch]
    simp [processToolCalls, hexec, hfc]
  have hstep := tcStep_batch_eq a env i st r hr hne
  rw [hbr] at hstep
  refine ⟨?_, ?_, ⟨tcBatchActionStep a i st r, ?_, ?_, ?_⟩, ?_⟩
  · rw [hstep]
  · rw [hstep]
  · rw [hstep]; rfl
  · simp only [tcBatchActionStep, hbr]
  · simp only [tcBatchActionStep, hbr]
    exact goJoin_singleton _ _
  · intro fuel hci
    rw [runLoop, hci]
    simp only [Bool.false_eq_true, if_false]
    rw [show tcStep a env i st = ((tcStep a env i st).1, (tcStep a env i st).2) from rfl,
      hstep]
    simp

/-- A response carrying a `final_answer` call with no "answer" argument. -/
def wRespBadFinal : ModelResponse :=
  { content := "hi", toolCalls := [⟨"1", "final_answer", []⟩] }

/-- Environment for the failed-final-answer witness. -/
def wEnvBadFinal : ModelEnv :=
  { respond := fun _ => .ok wRespBadFinal,
    cancelled := fun _ => false }

/-- C10 witness at step 1 of a concrete run state. -/
theorem C10_failed_final_answer_witness :
    (tcStep wAgent wEnvBadFinal 1 wState).2 = false ∧
    (tcStep wAgent wEnvBadFinal 1 wState).1.finalOutput = wState.finalOutput ∧
    (∃ as : ActionStep,
      (tcStep wAgent wEnvBadFinal 1 wState).1.memory.steps =
        wState.memory.steps ++ [Step.action as] ∧
      as.isFinal = false ∧
      as.observations = "Error executing final_answer: missing required argument: answer") ∧
    runLoop (tcStep wAgent wEnvBadFinal) wEnvBadFinal.cancelled 2 1 wState =
      runLoop (tcStep wAgent wEnvBadFinal) wEnvBadFinal.cancelled 1 2
        (tcStep wAgent wEnvBadFinal 1 wState).1 := by
  have h := C10_failed_final_answer wAgent wEnvBadFinal 1 wState wRespBadFinal
    ⟨"1", "final_answer", []⟩ rfl rfl rfl rfl rfl rfl
  exact ⟨h.1, h.2.1, h.2.2.1, h.2.2.2 1 rfl⟩

/-! ## Code-variant step characterization -/

/-- The Action step a code-variant iteration records when the response
succeeds, a code block is extracted, and the executor runs
(part_004 lines 341-356). -/
def codeExecActionStep (env : CodeEnv) (i : Nat) (st : RunState) (r : ModelResponse) :
    ActionStep :=
  let code := parseCodeBlock r.content
  let res := env.exec i code
  match res.error with
  | some e =>
      { stepNumber := i, timing := ⟨st.clock, some (st.clock + 1)⟩,
        modelOutput := r.content, tokenUsage := r.tokenUsage,
        codeAction := code, error := some e, observations := res.logs }
  | none =>
      { stepNumber := i, timing := ⟨st.clock, some (st.clock + 1)⟩,
        modelOutput := r.content, tokenUsage := r.tokenUsage,
        codeAction := code, observations := res.logs,
        isFinal := isFinalAnswer code }

theorem codeExecActionStep_timing (env : CodeEnv) (i : Nat) (st : RunState)
    (r : ModelResponse) :
    (codeExecActionStep env i st r).timing = ⟨st.clock, some (st.clock + 1)⟩ := by
  cases h : (env.exec i (parseCodeBlock r.content)).error <;>
    simp [codeExecActionStep, h]

/-- Full characterization of a code-variant iteration on a successful
response with an extractable code block. -/
theorem codeStep_exec_eq (a : BaseAgent) (env : CodeEnv) (i : Nat) (st : RunState)
    (r : ModelResponse) (hr : env.respond i = .ok r)
    (hcode : parseCodeBlock r.content ≠ "") :
    codeStep a env i st =
      ({ memory := st.memory.AddStep (.action (codeExecActionStep env i st r)),
         finalOutput :=
           if ((env.exec i (parseCodeBlock r.content)).error.isNone
               && isFinalAnswer (parseCodeBlock r.content)) = true
           then (env.exec i (parseCodeBlock r.content)).output else st.finalOutput,
         clock := st.clock + 2,
         trace := (st.trace ++ [.appended (.action (codeExecActionStep env i st r))])
           ++ (a.callbacks.Trigger (.action (codeExecActionStep env i st r))).map
                (fun cb => .invoked cb (.action (codeExecActionStep env i st r))) },
       ((env.exec i (parseCodeBlock r.content)).error.isNone
         && isFinalAnswer (parseCodeBlock r.content))) := by
  cases he : (env.exec i (parseCodeBlock r.content)).error with
  | some e =>
      simp [codeStep, hr, hcode, he, codeExecActionStep, RunState.now, RunState.addStep,
        RunState.triggerCbs, Memory.AddStep]
  | none =>
      by_cases hfa : isFinalAnswer (parseCodeBlock r.content) <;>
        simp [codeStep, hr, hcode, he, hfa, codeExecActionStep, RunState.now,
          RunState.addStep, RunState.triggerCbs, Memory.AddStep]

/-! ## C3: finality of a code step (corrected) -/

/-- A code-variant response whose code block invokes `final_answer` but
whose execution errors. -/
def wCodeRespFA : ModelResponse :=
  { content := "<code>final_answer(1)</code>" }

/-- Environment whose executor always fails. -/
def wCodeEnvErr : CodeEnv :=
  { respond := fun _ => .ok wCodeRespFA,
    cancelled := fun _ => false,
    exec := fun _ _ => ⟨none, "partial logs", some "runtime error"⟩ }

/-- C3 counterexample: the extracted code `final_answer(1)` contains an
invocation of the reserved function and is handed to the executor, yet the
recorded Action step is NOT marked final, because the executor returned an
error — refuting the claimed "final iff the code text contains an
invocation of final_answer". -/
theorem C3_counterexample :
    isFinalAnswer "final_answer(1)" = true ∧
    (CodeAgentRunState wAgent wCodeEnvErr "t" 1 true (NewMemory "sys")).map
        (fun st => st.memory.steps) =
      .ok [Step.task "t" [],
           Step.action { stepNumber := 1, timing := ⟨1, some 2⟩,
                         modelOutput := "<code>final_answer(1)</code>",
                         codeAction := "final_answer(1)",
                         observations := "partial logs",
                         error := some "runtime error",
                         isFinal := false }] :=
  ⟨by decide, by rfl⟩

/-- C3 amended: for every code-variant step whose response yields an
extractable code block handed to the executor, the Action step is marked
final iff the executor returned no error AND the code text contains an
invocation of `final_answer`; when marked final, the executor's returned
output becomes the run's output and the loop stops after appending the
FinalAnswer step. -/
theorem C3_final_iff_contains_and_no_error (a : BaseAgent) (env : CodeEnv) (i : Nat)
    (st : RunState) (r : ModelResponse)
    (hr : env.respond i = .ok r)
    (hcode : parseCodeBlock r.content ≠ "") :
    ∃ as : ActionStep,
      (codeStep a env i st).1.memory.steps = st.memory.steps ++ [Step.action as] ∧
      as.codeAction = parseCodeBlock r.content ∧
      as.isFinal = ((env.exec i (parseCodeBlock r.content)).error.isNone
        && isFinalAnswer (parseCodeBlock r.content)) ∧
      (codeStep a env i st).2 = as.isFinal ∧
      (codeStep a env i st).1.finalOutput =
        (if as.isFinal then (env.exec i (parseCodeBlock r.content)).output
         else st.finalOutput) ∧
      (as.isFinal = true → ∀ fuel : Nat, env.cancelled i = false →
        runLoop (codeStep a env) env.cancelled (fuel + 1) i st =
          .ok ((codeStep a env i st).1.addStep
            (.finalAnswer (env.exec i (parseCodeBlock r.content)).output))) := by
  have hstep := codeStep_exec_eq a env i st r hr hcode
  have hfinal : (codeExecActionStep env i st r).isFinal =
      ((env.exec i (parseCodeBlock r.content)).error.isNone
        && isFinalAnswer (parseCodeBlock r.content)) := by
    cases he : (env.exec i (parseCodeBlock r.content)).error <;>
      simp [codeExecActionStep, he]
  refine ⟨codeExecActionStep env i st r, ?_, ?_, hfinal, ?_, ?_, ?_⟩
  · rw [hstep]
    simp [Memory.AddStep]
  · cases he : (env.exec i (parseCodeBlock r.content)).error <;>
      simp [codeExecActionStep, he]
  · rw [hstep, hfinal]
  · rw [hstep, hfinal]
  · intro hfin fuel hci
    rw [runLoop, hci]
    simp only [Bool.false_eq_true, if_false]
    rw [show codeStep a env i st = ((codeStep a env i st).1, (codeStep a env i st).2) from rfl]
    have h2 : (codeStep a env i st).2 = true := by
      rw [hstep]; rw [hfinal] at hfin; exact hfin
    rw [h2]
    simp only [if_true]
    have hout : (codeStep a env i st).1.finalOutput =
        (env.exec i (parseCodeBlock r.content)).output := by
      rw [hstep]
      rw [hfinal] at hfin
      simp [hfin]
    rw [hout]

/-- A response whose code block is a successful final answer. -/
def wCodeRespOk : ModelResponse :=
  { content := "<code>final_answer(7)</code>" }

/-- A code-variant environment whose executor succeeds with output 7. -/
def wCodeEnvOk : CodeEnv :=
  { respond := fun _ => .ok wCodeRespOk,
    cancelled := fun _ => false,
    exec := fun _ _ => ⟨some (.vInt 7), "exec logs", none⟩ }

/-- C3 witness: a successful execution of code containing `final_answer(`
is marked final and the executor's output becomes the run output. -/
theorem C3_final_iff_contains_and_no_error_witness :
    ∃ as : ActionStep,
      (codeStep wAgent wCodeEnvOk 1 wState).1.memory.steps =
        wState.memory.steps ++ [Step.action as] ∧
      as.codeAction = parseCodeBlock "<code>final_answer(7)</code>" ∧
      as.isFinal = ((wCodeEnvOk.exec 1 (parseCodeBlock "<code>final_answer(7)</code>")).error.isNone
        && isFinalAnswer (parseCodeBlock "<code>final_answer(7)</code>")) ∧
      (codeStep wAgent wCodeEnvOk 1 wState).2 = as.isFinal ∧
      (codeStep wAgent wCodeEnvOk 1 wState).1.finalOutput =
        (if as.isFinal then (wCodeEnvOk.exec 1 (parseCodeBlock "<code>final_answer(7)</code>")).output
         else wState.finalOutput) ∧
      (as.isFinal = true → ∀ fuel : Nat, wCodeEnvOk.cancelled 1 = false →
        runLoop (codeStep wAgent wCodeEnvOk) wCodeEnvOk.cancelled (fuel + 1) 1 wState =
          .ok ((codeStep wAgent wCodeEnvOk 1 wState).1.addStep
            (.finalAnswer (wCodeEnvOk.exec 1 (parseCodeBlock "<code>final_answer(7)</code>")).output))) :=
  C3_final_iff_contains_and_no_error wAgent wCodeEnvOk 1 wState
    wCodeRespOk rfl (by decide)

/-! ## C5: timing finalization and callback triggering (corrected) -/

/-- A code-variant environment whose model always fails. -/
def wCodeEnvGenFail : CodeEnv :=
  { respond := fun _ => .error "model down",
    cancelled := fun _ => false,
    exec := fun _ _ => ⟨none, "", none⟩ }

/-- C5 counterexample: with an "all" callback registered, a code-variant
run whose model generation fails appends the failure Action step with
timing NOT finalized (`endTime = none`) and invokes NO callback (the trace
holds only `appended` events) — refuting the claim that every appended
Action step has finalized timing and triggers the registered callbacks. -/
theorem C5_counterexample :
    wAgent.callbacks.callbacks "all" = [0] ∧
    (CodeAgentRunState wAgent wCodeEnvGenFail "t" 1 true (NewMemory "sys")).map
        (fun st => (st.trace, st.memory.steps)) =
      .ok ([.appended (.task "t" []),
            .appended (.action { stepNumber := 1, timing := ⟨1, none⟩,
                                 error := some "model down" })],
           [Step.task "t" [],
            Step.action { stepNumber := 1, timing := ⟨1, none⟩,
                          error := some "model down" }]) :=
  ⟨rfl, rfl⟩

/-- C5 amended: in the code variant, an Action step recorded after a
successful model response with an extracted code block has its timing
finalized before the append, and after the append the callbacks for the
step's type followed by the "all" callbacks are invoked in registration
order; but an Action step recording a model generation failure or a
"no code block found" failure is appended with timing NOT finalized and
NO callbacks are invoked for it. -/
theorem C5_append_then_callbacks (a : BaseAgent) (env : CodeEnv) (i : Nat) (st : RunState) :
    (∀ r : ModelResponse, env.respond i = .ok r → parseCodeBlock r.content ≠ "" →
      ∃ as : ActionStep,
        as.timing.endTime = some (st.clock + 1) ∧
        (codeStep a env i st).1.memory.steps = st.memory.steps ++ [Step.action as] ∧
        (codeStep a env i st).1.trace =
          (st.trace ++ [.appended (.action as)])
          ++ (a.callbacks.callbacks "action" ++ a.callbacks.callbacks "all").map
               (fun cb => .invoked cb (.action as))) ∧
    (∀ e : String, env.respond i = .error e →
      ∃ as : ActionStep,
        as.timing.endTime = none ∧ as.error = some e ∧
        (codeStep a env i st).1.memory.steps = st.memory.steps ++ [Step.action as] ∧
        (codeStep a env i st).1.trace = st.trace ++ [.appended (.action as)]) ∧
    (∀ r : ModelResponse, env.respond i = .ok r → parseCodeBlock r.content = "" →
      ∃ as : ActionStep,
        as.timing.endTime = none ∧ as.error = some "no code block found" ∧
        (codeStep a env i st).1.memory.steps = st.memory.steps ++ [Step.action as] ∧
        (codeStep a env i st).1.trace = st.trace ++ [.appended (.action as)]) := by
  refine ⟨?_, ?_, ?_⟩
  · intro r hr hcode
    refine ⟨codeExecActionStep env i st r, ?_, ?_, ?_⟩
    · rw [codeExecActionStep_timing]
    · rw [codeStep_exec_eq a env i st r hr hcode]
      simp [Memory.AddStep]
    · rw [codeStep_exec_eq a env i st r hr hcode]
      simp [CallbackRegistry.Trigger, Step.StepType]
  · intro e hr
    refine ⟨{ stepNumber := i, timing := ⟨st.clock, none⟩, error := some e },
      rfl, rfl, ?_, ?_⟩ <;>
      simp [codeStep, hr, RunState.now, RunState.addStep, Memory.AddStep]
  · intro r hr hcode
    refine ⟨{ stepNumber := i, timing := ⟨st.clock, none⟩, modelOutput := r.content,
              tokenUsage := r.tokenUsage, error := some "no code block found" },
      rfl, rfl, ?_, ?_⟩ <;>
      simp [codeStep, hr, hcode, RunState.now, RunState.addStep, Memory.AddStep]

/-- C5 witness: the normal-path part at a concrete step, and the
generation-failure part at a concrete step. -/
theorem C5_append_then_callbacks_witness :
    (∃ as : ActionStep,
      as.timing.endTime = some (wState.clock + 1) ∧
      (codeStep wAgent wCodeEnvOk 1 wState).1.memory.steps =
        wState.memory.steps ++ [Step.action as] ∧
      (codeStep wAgent wCodeEnvOk 1 wState).1.trace =
        (wState.trace ++ [.appended (.action as)])
        ++ (wAgent.callbacks.callbacks "action" ++ wAgent.callbacks.callbacks "all").map
             (fun cb => .invoked cb (.action as))) ∧
    (∃ as : ActionStep,
      as.timing.endTime = none ∧ as.error = some "model down" ∧
      (codeStep wAgent wCodeEnvGenFail 1 wState).1.memory.steps =
        wState.memory.steps ++ [Step.action as] ∧
      (codeStep wAgent wCodeEnvGenFail 1 wState).1.trace =
        wState.trace ++ [.appended (.action as)]) :=
  ⟨(C5_append_then_callbacks wAgent wCodeEnvOk 1 wState).1 wCodeRespOk rfl (by decide),
   (C5_append_then_callbacks wAgent wCodeEnvGenFail 1 wState).2.1 "model down" rfl⟩

/-! ## C8: code-block extraction -/

/-- A code-variant environment whose model answers prose with no code
delimiters. -/
def wCodeEnvProse : CodeEnv :=
  { respond := fun _ => .ok { content := "I think the answer is 42." : ModelResponse },
    cancelled := fun _ => false,
    exec := fun _ _ => ⟨none, "", none⟩ }

/-- C8: `<code>print(1)</code>` extracts `print(1)`; the truncated
`<code>print(1)` also extracts `print(1)`; prose without delimiters (and
without a fenced block) extracts nothing, the step is recorded with a
"no code block found" error, and the run continues to the next step (two
Action steps are recorded under a budget of 2). -/
theorem C8_code_extraction :
    parseCodeBlock "<code>print(1)</code>" = "print(1)" ∧
    parseCodeBlock "<code>print(1)" = "print(1)" ∧
    parseCodeBlock "I think the answer is 42." = "" ∧
    (CodeAgentRunState wAgent wCodeEnvProse "t" 2 true (NewMemory "sys")).map
        (fun st => st.memory.steps) =
      .ok [Step.task "t" [],
           Step.action { stepNumber := 1, timing := ⟨1, none⟩,
                         modelOutput := "I think the answer is 42.",
                         error := some "no code block found" },
           Step.action { stepNumber := 2, timing := ⟨2, none⟩,
                         modelOutput := "I think the answer is 42.",
                         error := some "no code block found" }] :=
  ⟨by decide, by decide, by decide, by rfl⟩

/-! ## C9: purity and order of memory rendering -/

theorem foldl_append_flatten {α β : Type} (f : α → List β) :
    ∀ (l : List α) (init : List β),
      l.foldl (fun acc s => acc ++ f s) init = init ++ (l.map f).flatten := by
  intro l
  induction l with
  | nil => simp
  | cons x xs ih => intro init; simp [ih]

/-- C9: rendering the history store is a pure function of the system
prompt and the step sequence — it always returns the system-prompt message
followed by each step's own rendering concatenated in step order (so two
calls without an intervening append or reset return identical message
sequences) — and an Action step with no model text, no tool calls, no
observations and no error contributes zero messages. -/
theorem C9_render_pure_and_order :
    (∀ m : Memory, m.ToMessages =
      ⟨.system, m.systemPrompt⟩ :: (m.steps.map Step.ToMessages).flatten) ∧
    (∀ (i : Nat) (tim : Timing) (code : String) (tu : Option TokenUsage) (fin : Bool),
      ActionStep.ToMessages
        { stepNumber := i, timing := tim, modelOutput := "", codeAction := code,
          toolCalls := [], observations := "", error := none, tokenUsage := tu,
          isFinal := fin } = []) := by
  constructor
  · intro m
    rw [Memory.ToMessages, foldl_append_flatten]
    rfl
  · intro i tim code tu fin
    rfl

/-! ## C7: the sentinel result-line protocol -/

/-- Splitting on newlines is the left inverse of joining with newlines,
for a non-empty line list whose lines contain no newline. -/
theorem goSplitLines_goJoin (ls : List String)
    (h : ∀ l ∈ ls, '\n' ∉ l.data) (hne : ls ≠ []) :
    goSplitLines (goJoin ls "\n") = ls := by
  unfold goSplitLines goJoin splitNl
  rw [show ("\n" : String).data = ['\n'] from rfl]
  have hmem : ∀ l ∈ ls.map (fun (l : String) => l.data), '\n' ∉ l := by
    intro l hl
    obtain ⟨s, hs, rfl⟩ := List.mem_map.mp hl
    exact h s hs
  have hne' : ls.map (fun (l : String) => l.data) ≠ [] := by simpa using hne
  rw [List.splitOn_intercalate (ls.map (fun (l : String) => l.data)) '\n' hmem hne']
  rw [List.map_map]
  have hid : ((fun cs => (⟨cs⟩ : String)) ∘ fun (l : String) => l.data) = id :=
    funext fun l => rfl
  rw [hid, List.map_id]

/-- C7: for a non-erroring, non-timed-out executor run whose log text is a
newline join of lines with no leading/trailing whitespace to trim: if the
last line carries the "__RESULT__:" sentinel, both executors return the
JSON-decoded remainder of that line as the output and the preceding lines
(sentinel line excluded) joined as the logs; if it does not, both return
absent output, the full log text, and no error. -/
theorem C7_sentinel_result_line (jsonDec : String → Option Val) (timeoutStr : String)
    (ls : List String) (lastLine stderr : String)
    (hnl : ∀ l ∈ ls ++ [lastLine], '\n' ∉ l.data)
    (htrim : goTrimSpace (goJoin (ls ++ [lastLine]) "\n") = goJoin (ls ++ [lastLine]) "\n") :
    (goStartsWith lastLine "__RESULT__:" = true →
      PythonExecutorExecute jsonDec timeoutStr
          (.completes none (goJoin (ls ++ [lastLine]) "\n") stderr) =
        { output := jsonDec ⟨lastLine.data.drop 11⟩, logs := goJoin ls "\n",
          error := none, killed := false } ∧
      DockerExecutorExecute jsonDec
          (.completes none (goJoin (ls ++ [lastLine]) "\n") stderr) =
        { output := jsonDec ⟨lastLine.data.drop 11⟩, logs := goJoin ls "\n",
          error := none, killed := false }) ∧
    (goStartsWith lastLine "__RESULT__:" = false →
      PythonExecutorExecute jsonDec timeoutStr
          (.completes none (goJoin (ls ++ [lastLine]) "\n") stderr) =
        { output := none, logs := goJoin (ls ++ [lastLine]) "\n",
          error := none, killed := false } ∧
      DockerExecutorExecute jsonDec
          (.completes none (goJoin (ls ++ [lastLine]) "\n") stderr) =
        { output := none, logs := goJoin (ls ++ [lastLine]) "\n",
          error := none, killed := false }) := by
  have hsplit : goSplitLines (goTrimSpace (goJoin (ls ++ [lastLine]) "\n")) =
      ls ++ [lastLine] := by
    rw [htrim]
    exact goSplitLines_goJoin (ls ++ [lastLine]) hnl (by simp)
  constructor
  · intro hpre
    constructor
    · simp only [PythonExecutorExecute, hsplit, List.getLast?_concat,
        List.dropLast_concat, hpre, if_true]
    · simp only [DockerExecutorExecute, hsplit, List.getLast?_concat,
        List.dropLast_concat, hpre, if_true]
  · intro hpre
    constructor
    · simp only [PythonExecutorExecute, hsplit, List.getLast?_concat,
        List.dropLast_concat, hpre, Bool.false_eq_true, if_false]
    · simp only [DockerExecutorExecute, hsplit, List.getLast?_concat,
        List.dropLast_concat, hpre, Bool.false_eq_true, if_false]

/-- A concrete JSON decoder fragment for the executor witnesses. -/
def wJsonDec : String → Option Val :=
  fun s => if s = "42" then some (.vInt 42) else none

/-- C7 witness: logs "line one\n__RESULT__:42" carry the sentinel on the
last line; both executors decode 42 and return "line one" as logs. -/
theorem C7_sentinel_result_line_witness :
    (goStartsWith "__RESULT__:42" "__RESULT__:" = true →
      PythonExecutorExecute wJsonDec "30s"
          (.completes none (goJoin (["line one"] ++ ["__RESULT__:42"]) "\n") "") =
        { output := wJsonDec ⟨("__RESULT__:42" : String).data.drop 11⟩,
          logs := goJoin ["line one"] "\n", error := none, killed := false } ∧
      DockerExecutorExecute wJsonDec
          (.completes none (goJoin (["line one"] ++ ["__RESULT__:42"]) "\n") "") =
        { output := wJsonDec ⟨("__RESULT__:42" : String).data.drop 11⟩,
          logs := goJoin ["line one"] "\n", error := none, killed := false }) ∧
    (goStartsWith "__RESULT__:42" "__RESULT__:" = false →
      PythonExecutorExecute wJsonDec "30s"
          (.completes none (goJoin (["line one"] ++ ["__RESULT__:42"]) "\n") "") =
        { output := none, logs := goJoin (["line one"] ++ ["__RESULT__:42"]) "\n",
          error := none, killed := false } ∧
      DockerExecutorExecute wJsonDec
          (.completes none (goJoin (["line one"] ++ ["__RESULT__:42"]) "\n") "") =
        { output := none, logs := goJoin (["line one"] ++ ["__RESULT__:42"]) "\n",
          error := none, killed := false }) :=
  C7_sentinel_result_line wJsonDec "30s" ["line one"] "__RESULT__:42" ""
    (by decide) (by decide)

/-! ## C4: timeout behaviour of the two executors -/

/-- C4 evaluation: on a timed-out execution both executors return a
timeout error with absent output and no log capture, and neither merges
the late-arriving subprocess output into the result (the return is
independent of `lateStdout`/`lateStderr`); but only the local-process
executor forcibly terminates the subprocess (`cmd.Process.Kill()`,
part_002 line 87) — the container executor's timeout branch (part_002
lines 187-189) returns without killing, contradicting the claim for the
container realization. -/
theorem C4_timeout_kill_divergence (jsonDec : String → Option Val) (timeoutStr : String)
    (lateStdout lateStderr : String) :
    PythonExecutorExecute jsonDec timeoutStr (.timesOut lateStdout lateStderr) =
      { output := none, logs := "",
        error := some ("execution timeout after " ++ timeoutStr), killed := true } ∧
    DockerExecutorExecute jsonDec (.timesOut lateStdout lateStderr) =
      { output := none, logs := "",
        error := some "docker execution timeout", killed := false } :=
  ⟨rfl, rfl⟩

end Neko
